import Mathlib

/-!
Verification of the PCD8544 display driver (Rust, `src/lib.rs`) against its
natural-language specification.

The driver is shallowly embedded: the framebuffer and orientation engine are
pure functions on an explicit state record; the protocol layer is modelled as
the trace of line/bus operations a call emits; line acquisition (`new_pin`) is
modelled as a function of the outcomes of the collaborator calls it makes.
Rust `usize` arithmetic wraps modulo 2^64 (release-profile semantics, i.e.
overflow checks disabled), written explicitly as `% 2^64` via `wrap`/`wsub`.
Fallible code (array indexing that can panic) returns `Option`.

The font module `terminus6x12` referenced by the source is not part of the
provided sources; it is modelled from the specification where needed.
-/

set_option maxRecDepth 8000

namespace Pcd8544

/-- Display width in pixels (`LCDWIDTH` in the source). -/
def LCDWIDTH : Nat := 84

/-- Display height in pixels (`LCDHEIGHT` in the source). -/
def LCDHEIGHT : Nat := 48

/-- Framebuffer length in bytes (`BUFFER_LEN = LCDWIDTH * LCDHEIGHT / 8`). -/
def BUFFER_LEN : Nat := LCDWIDTH * LCDHEIGHT / 8

/-- Controller command constants from the source. -/
def PCD8544_EXTENDEDINSTRUCTION : Nat := 0x01

/-- Display-control operand selecting normal (non-blank, non-inverted) mode. -/
def PCD8544_DISPLAYNORMAL : Nat := 0x04

/-- Function-set command base byte. -/
def PCD8544_FUNCTIONSET : Nat := 0x20

/-- Display-control command base byte. -/
def PCD8544_DISPLAYCONTROL : Nat := 0x08

/-- Set-operating-voltage (contrast) extended command base byte. -/
def PCD8544_SETVOP : Nat := 0x80

/-- Set-bias extended command base byte. -/
def PCD8544_SETBIAS : Nat := 0x10

/-- The `usize` modulus: the source targets a 64-bit platform. -/
def USIZE : Nat := 2 ^ 64

/-- Reduction of a value into the `usize` range. -/
def wrap (n : Nat) : Nat := n % USIZE

/-- Rust `usize` subtraction `a - b` with overflow checks disabled: the
result wraps modulo 2^64.  For `b ≤ a` this is ordinary subtraction. -/
def wsub (a b : Nat) : Nat := wrap (a + (USIZE - wrap b))

/-- The `Orientation` enum of the source: `Portrait(bool)` / `Landscape(bool)`,
the `Bool` payload meaning "flipped". -/
inductive Orientation where
  | Portrait (flipped : Bool)
  | Landscape (flipped : Bool)
deriving DecidableEq

/-- The driver state (`struct PCD8544`).  The collaborator handles `dc`, `rst`
and `spi` are external resources whose interaction is modelled separately as
operation traces; the remaining fields are carried here verbatim. -/
structure State where
  buffer : List Nat
  orient : Orientation
  char_spacing : Nat
  inverse : Bool
deriving DecidableEq

/-- The logical-to-physical coordinate transform performed at the top of
`set_pixel` (the `match self.orient` expression).  Subtractions are `usize`
subtractions and wrap on underflow. -/
def transform (o : Orientation) (x y : Nat) : Nat × Nat :=
  match o with
  | .Landscape false => (x, y)
  | .Portrait false => (wsub (LCDWIDTH - 1) y, x)
  | .Landscape true => (y, wsub (LCDHEIGHT - 1) x)
  | .Portrait true => (wsub (LCDWIDTH - 1) x, wsub (LCDHEIGHT - 1) y)

/-- `PCD8544::set_pixel`.  Transforms `(x, y)` by the active orientation,
returns the state unchanged when the physical coordinate is out of range,
otherwise sets or clears bit `py % 8` of buffer byte `px + (py / 8) * LCDWIDTH`
according to `value != self.inverse`. -/
def set_pixel (st : State) (x y : Nat) (value : Bool) : State :=
  let p := transform st.orient x y
  let px := p.1
  let py := p.2
  if LCDWIDTH ≤ px ∨ LCDHEIGHT ≤ py then
    st
  else
    let bv := 1 <<< (py % 8)
    let idx := px + py / 8 * LCDWIDTH
    if value != st.inverse then
      { st with buffer := st.buffer.set idx (st.buffer.getD idx 0 ||| bv) }
    else
      { st with buffer := st.buffer.set idx (st.buffer.getD idx 0 &&& (bv ^^^ 0xFF)) }

/-- Observer: the buffer bit that `set_pixel` addresses for logical `(x, y)`
under the state's orientation (the "read back" of the specification). -/
def pixelBit (st : State) (x y : Nat) : Bool :=
  let p := transform st.orient x y
  (st.buffer.getD (p.1 + p.2 / 8 * LCDWIDTH) 0).testBit (p.2 % 8)

/-- `PCD8544::clear`: overwrite the whole framebuffer with zero bytes. -/
def clear (st : State) : State :=
  { st with buffer := List.replicate BUFFER_LEN 0 }

/-- The all-zero, landscape-normal state a fresh `PCD8544::new` starts from. -/
def initState : State :=
  { buffer := List.replicate BUFFER_LEN 0
    orient := .Landscape false
    char_spacing := 0
    inverse := false }

/-- The byte-level effect of an in-range `set_pixel` on the addressed byte:
set bit `i` when `tv` is true, clear it otherwise (proof-side abbreviation for
the two branches of the source). -/
def byteWrite (b i : Nat) (tv : Bool) : Nat :=
  if tv then b ||| 1 <<< i else b &&& (1 <<< i ^^^ 0xFF)

/-- The conjunction of observable effects claimed for an in-range
`set_pixel st x y v` with physical coordinate `(px, py)`. -/
def SetPixelSpec (st : State) (x y px py : Nat) (v : Bool) : Prop :=
  (set_pixel st x y v).orient = st.orient ∧
  (set_pixel st x y v).inverse = st.inverse ∧
  (set_pixel st x y v).char_spacing = st.char_spacing ∧
  (set_pixel st x y v).buffer.length = st.buffer.length ∧
  (∀ j, j ≠ px + py / 8 * 84 →
    (set_pixel st x y v).buffer.getD j 0 = st.buffer.getD j 0) ∧
  ((set_pixel st x y v).buffer.getD (px + py / 8 * 84) 0).testBit (py % 8)
    = xor v st.inverse ∧
  (∀ b, b < 8 → b ≠ py % 8 →
    ((set_pixel st x y v).buffer.getD (px + py / 8 * 84) 0).testBit b
      = (st.buffer.getD (px + py / 8 * 84) 0).testBit b) ∧
  pixelBit (set_pixel st x y v) x y = xor v st.inverse

end Pcd8544

namespace Pcd8544

lemma getD_set_self {l : List Nat} {i : Nat} (a : Nat) (h : i < l.length) :
    (l.set i a).getD i 0 = a := by
  rw [List.getD_eq_getD_get?]
  simp [List.get?_eq_getElem?, List.getElem?_set_self', List.getElem?_eq_getElem h]

lemma getD_set_other {l : List Nat} {i j : Nat} (a : Nat) (h : j ≠ i) :
    (l.set i a).getD j 0 = l.getD j 0 := by
  rw [List.getD_eq_getD_get?, List.getD_eq_getD_get?]
  simp [List.get?_eq_getElem?, List.getElem?_set_ne (Ne.symm h)]

lemma byteWrite_testBit_self (b i : Nat) (tv : Bool) (hi : i < 8) :
    (byteWrite b i tv).testBit i = tv := by
  have h255 : (0xFF : Nat) = 2 ^ 8 - 1 := by norm_num
  cases tv with
  | true =>
    simp [byteWrite, Nat.testBit_lor, Nat.shiftLeft_eq, Nat.testBit_two_pow_self]
  | false =>
    rw [byteWrite, if_neg (by simp), Nat.testBit_land, Nat.testBit_xor,
      Nat.shiftLeft_eq, h255, one_mul, Nat.testBit_two_pow_self,
      Nat.testBit_two_pow_sub_one]
    simp [hi]

lemma byteWrite_testBit_other (b i j : Nat) (tv : Bool) (hj : j < 8) (h : j ≠ i) :
    (byteWrite b i tv).testBit j = b.testBit j := by
  have h255 : (0xFF : Nat) = 2 ^ 8 - 1 := by norm_num
  cases tv with
  | true =>
    simp [byteWrite, Nat.testBit_lor, Nat.shiftLeft_eq,
      Nat.testBit_two_pow_of_ne (Ne.symm h)]
  | false =>
    rw [byteWrite, if_neg (by simp), Nat.testBit_land, Nat.testBit_xor,
      Nat.shiftLeft_eq, h255, one_mul,
      Nat.testBit_two_pow_of_ne (Ne.symm h), Nat.testBit_two_pow_sub_one]
    simp [hj]

lemma set_pixel_in_range_eq (st : State) (x y px py : Nat) (v : Bool)
    (ht : transform st.orient x y = (px, py))
    (hpx : px < 84) (hpy : py < 48) :
    set_pixel st x y v =
      { st with buffer := (st.buffer.set (px + py / 8 * 84)
          (byteWrite (st.buffer.getD (px + py / 8 * 84) 0) (py % 8)
            (xor v st.inverse))) } := by
  have hguard : ¬ (LCDWIDTH ≤ px ∨ LCDHEIGHT ≤ py) := by
    simp only [LCDWIDTH, LCDHEIGHT]
    omega
  simp only [set_pixel, ht]
  rw [if_neg hguard]
  simp only [LCDWIDTH]
  cases v <;> cases hv : st.inverse <;>
    simp [byteWrite, hv]

end Pcd8544

namespace Pcd8544

/-- Claim C1: for every orientation and logical coordinate whose transform
lands inside `[0,84) × [0,48)`, `set_pixel(x, y, value)` changes exactly the
buffer byte at `px + (py/8)*84`: bit `py % 8` of that byte becomes
`value XOR inverse`, all other bits and bytes are untouched, and reading the
corresponding buffer bit back yields `value XOR inverse`. -/
theorem set_pixel_in_range (st : State) (x y px py : Nat) (v : Bool)
    (hlen : st.buffer.length = 504)
    (ht : transform st.orient x y = (px, py))
    (hpx : px < 84) (hpy : py < 48) :
    SetPixelSpec st x y px py v := by
  have hidx : px + py / 8 * 84 < 504 := by omega
  have heq := set_pixel_in_range_eq st x y px py v ht hpx hpy
  have hb8 : py % 8 < 8 := Nat.mod_lt _ (by norm_num)
  refine ⟨by rw [heq], by rw [heq], by rw [heq], by rw [heq]; simp, ?_, ?_, ?_, ?_⟩
  · intro j hj
    rw [heq]
    exact getD_set_other _ hj
  · rw [heq]
    simp only
    rw [getD_set_self _ (by omega)]
    exact byteWrite_testBit_self _ _ _ hb8
  · intro b hb hbne
    rw [heq]
    simp only
    rw [getD_set_self _ (by omega)]
    exact byteWrite_testBit_other _ _ _ _ hb hbne
  · rw [heq]
    simp only [pixelBit, ht, LCDWIDTH]
    rw [getD_set_self _ (by omega)]
    exact byteWrite_testBit_self _ _ _ hb8

/-- Witness for C1: a concrete in-range write on the initial state. -/
theorem set_pixel_in_range_witness :
    initState.buffer.length = 504 ∧
    transform initState.orient 5 10 = (5, 10) ∧
    (5 : Nat) < 84 ∧ (10 : Nat) < 48 ∧
    SetPixelSpec initState 5 10 5 10 true :=
  ⟨by simp [initState, BUFFER_LEN, LCDWIDTH, LCDHEIGHT], rfl, by norm_num, by norm_num,
    set_pixel_in_range initState 5 10 5 10 true
      (by simp [initState, BUFFER_LEN, LCDWIDTH, LCDHEIGHT]) rfl
      (by norm_num) (by norm_num)⟩

/-- Claim C2: whenever the orientation transform of `(x, y)` falls outside
`[0,84) × [0,48)` — including logical coordinates whose transform subtraction
wraps around on underflow — `set_pixel` returns the state completely
unchanged (it neither errors nor panics: it is a total function). -/
theorem set_pixel_out_of_range (st : State) (x y px py : Nat) (v : Bool)
    (ht : transform st.orient x y = (px, py))
    (h : 84 ≤ px ∨ 48 ≤ py) :
    set_pixel st x y v = st := by
  simp only [set_pixel, ht, LCDWIDTH, LCDHEIGHT]
  rw [if_pos h]

/-- Witness for C2: in portrait-normal orientation the logical coordinate
`(0, 100)` makes `width - 1 - y` underflow; the wrapped physical x-coordinate
is far outside the display and the call is a no-op. -/
theorem set_pixel_out_of_range_witness :
    transform (State.mk (List.replicate BUFFER_LEN 0) (.Portrait false) 0 false).orient
      0 100 = (2 ^ 64 - 17, 0) ∧
    (84 ≤ 2 ^ 64 - 17 ∨ 48 ≤ 0) ∧
    set_pixel (State.mk (List.replicate BUFFER_LEN 0) (.Portrait false) 0 false)
      0 100 true = State.mk (List.replicate BUFFER_LEN 0) (.Portrait false) 0 false :=
  ⟨rfl, Or.inl (by norm_num),
    set_pixel_out_of_range _ 0 100 (2 ^ 64 - 17) 0 true rfl (Or.inl (by norm_num))⟩

/-- Claim C8: after `clear()` every one of the 504 framebuffer bytes is zero,
regardless of the prior buffer contents; `clear` is total and any subsequent
read of any byte yields zero. -/
theorem clear_spec (st : State) :
    (clear st).buffer = List.replicate 504 0 ∧
    (clear st).buffer.length = 504 ∧
    (∀ i, (clear st).buffer.getD i 0 = 0) ∧
    (clear st).orient = st.orient ∧
    (clear st).char_spacing = st.char_spacing ∧
    (clear st).inverse = st.inverse := by
  refine ⟨by simp [clear, BUFFER_LEN, LCDWIDTH, LCDHEIGHT], by simp [clear, BUFFER_LEN, LCDWIDTH, LCDHEIGHT], ?_, rfl, rfl, rfl⟩
  intro i
  rw [clear]
  simp only
  rw [List.getD_eq_getD_get?]
  rcases Nat.lt_or_ge i (List.replicate BUFFER_LEN (0 : Nat)).length with h | h
  · simp [List.get?_eq_getElem?, List.getElem?_eq_getElem h]
  · simp [List.get?_eq_getElem?, List.getElem?_eq_none h]

end Pcd8544

namespace Pcd8544

/-- One observable operation of the protocol layer: setting the data/command
select line (`dc.set_value`) or writing one byte over the SPI bus
(`spi.write(&[c])`). -/
inductive BusOp where
  | dcSet (v : Nat)
  | spiWrite (b : Nat)
deriving DecidableEq

/-- `PCD8544::send_command`: pull the mode-select line low, write one byte. -/
def send_command (c : Nat) : List BusOp :=
  [.dcSet 0, .spiWrite c]

/-- `PCD8544::send_extended_command`: enter extended-instruction mode, send
the extended command byte, return to basic mode, restore normal display
control - exactly four `send_command` calls. -/
def send_extended_command (c : Nat) : List BusOp :=
  send_command (PCD8544_FUNCTIONSET ||| PCD8544_EXTENDEDINSTRUCTION) ++
  send_command c ++
  send_command PCD8544_FUNCTIONSET ++
  send_command (PCD8544_DISPLAYCONTROL ||| PCD8544_DISPLAYNORMAL)

/-- `PCD8544::set_contrast`: saturate the argument at 127, then issue the
extended set-operating-voltage command with the clamped value. -/
def set_contrast (contrast : Nat) : List BusOp :=
  let c := if 127 < contrast then 127 else contrast
  send_extended_command (PCD8544_SETVOP ||| c)

/-- The bytes written to the bus by a trace, in order. -/
def spiWrites (ops : List BusOp) : List Nat :=
  ops.filterMap fun op =>
    match op with
    | .spiWrite b => some b
    | .dcSet _ => none

/-- Modelled from the spec: the controller's basic/extended instruction-mode
state after processing a trace.  Per the glossary and the function-set
command format, a byte written while the mode-select line is low whose value
lies in the function-set range `0x20..0x3F` selects extended mode exactly
when its low bit is set; every other operation leaves the mode unchanged.
`d` is the initial line level and `m` the initial mode (`true` = extended). -/
def extendedModeAfter (ops : List BusOp) (d : Nat) (m : Bool) : Bool :=
  (ops.foldl
    (fun s op =>
      match op with
      | .dcSet v => (v, s.2)
      | .spiWrite b =>
          (s.1, if s.1 = 0 ∧ 0x20 ≤ b ∧ b < 0x40 then decide (b % 2 = 1) else s.2))
    (d, m)).2

end Pcd8544

namespace Pcd8544

/-- Claim C6: `send_extended_command c` performs exactly four command writes,
each with the mode-select line low, in the order: function-set with the
extended bit (`0x20 ||| 0x01`), then `c`, then plain function-set (`0x20`),
then display-control normal (`0x08 ||| 0x04`); and afterwards the controller
is back in basic instruction mode whatever mode it started in. -/
theorem send_extended_command_spec (c : Nat) (d : Nat) (m : Bool) :
    send_extended_command c =
      [.dcSet 0, .spiWrite (PCD8544_FUNCTIONSET ||| PCD8544_EXTENDEDINSTRUCTION),
       .dcSet 0, .spiWrite c,
       .dcSet 0, .spiWrite PCD8544_FUNCTIONSET,
       .dcSet 0, .spiWrite (PCD8544_DISPLAYCONTROL ||| PCD8544_DISPLAYNORMAL)] ∧
    spiWrites (send_extended_command c) = [0x21, c, 0x20, 0x0C] ∧
    extendedModeAfter (send_extended_command c) d m = false :=
  ⟨rfl, rfl, rfl⟩

/-- Claim C7: `set_contrast` saturates its argument at 127 and issues the
extended command `0x80 ||| clamped`; every `v ≥ 127` (in particular `v = 200`)
yields exactly the trace of `set_contrast 127`, and the payloads of
`set_contrast 0` and `set_contrast 127` differ exactly in the low 7 bits. -/
theorem set_contrast_saturation (v : Nat) (h : 127 ≤ v) :
    set_contrast v = set_contrast 127 ∧
    set_contrast 200 = set_contrast 127 ∧
    (∀ w, spiWrites (set_contrast w) =
      [0x21, PCD8544_SETVOP ||| (if 127 < w then 127 else w), 0x20, 0x0C]) ∧
    spiWrites (set_contrast 0) = [0x21, 0x80, 0x20, 0x0C] ∧
    spiWrites (set_contrast 127) = [0x21, 0xFF, 0x20, 0x0C] ∧
    (0x80 : Nat) ≠ 0xFF ∧
    (0x80 : Nat) / 2 ^ 7 = 0xFF / 2 ^ 7 ∧
    (0x80 : Nat) % 2 ^ 7 = 0 ∧ (0xFF : Nat) % 2 ^ 7 = 127 := by
  have hsat : set_contrast v = set_contrast 127 := by
    rcases Nat.eq_or_lt_of_le h with h127 | h127
    · rw [← h127]
    · simp only [set_contrast]
      rw [if_pos h127, if_neg (by norm_num)]
  refine ⟨hsat, ?_, ?_, rfl, rfl, by norm_num, by norm_num, by norm_num, by norm_num⟩
  · simp only [set_contrast]
    rw [if_pos (by norm_num), if_neg (by norm_num)]
  · intro w
    simp only [set_contrast]
    rcases Nat.lt_or_ge 127 w with hw | hw
    · rw [if_pos hw]; rfl
    · rw [if_neg (by omega)]; rfl

/-- Witness for C7, at the clamp boundary input 200 named by the claim. -/
theorem set_contrast_saturation_witness :
    (127 : Nat) ≤ 200 ∧ set_contrast 200 = set_contrast 127 ∧
    spiWrites (set_contrast 200) = [0x21, 0xFF, 0x20, 0x0C] :=
  ⟨by norm_num, (set_contrast_saturation 200 (by norm_num)).1,
    by rw [(set_contrast_saturation 200 (by norm_num)).1]
       exact (set_contrast_saturation 200 (by norm_num)).2.2.2.2.1⟩

end Pcd8544

namespace Pcd8544

/-- Modelled from the spec: the glyph table asset consumed by the text
renderer (the `terminus6x12` module, whose source is not part of the provided
files).  Per the spec it consists of the cell dimension constants, an ordered
sequence of codepoints (`ENCODING`, 16-bit entries, index-aligned with the
bitmap) and a flat byte sequence (`BITMAP`) holding `HEIGHT` bytes per glyph,
indexed glyph-major. -/
structure Font where
  WIDTH : Nat
  HEIGHT : Nat
  ENCODING : List Nat
  BITMAP : List Nat

/-- Modelled from the spec: a concrete representative of the `terminus6x12`
asset.  The spec fixes the cell size (glyph width 6; the 6x12 cell gives 4
text rows on the 48-pixel display) and says the encoding table holds "a few
hundred glyphs"; the exact codepoint inventory and glyph pixel data are not
specified and no claim depends on them, so the printable ASCII range with
blank bitmaps stands in.  `BITMAP` has `HEIGHT` bytes per encoded glyph, as
the spec requires. -/
def terminus6x12 : Font :=
  { WIDTH := 6
    HEIGHT := 12
    ENCODING := List.range' 0x20 95
    BITMAP := List.replicate (95 * 12) 0 }

/-- Rust `Iterator::position`: index of the first element satisfying the
match, here specialised to the encoding scan `|&v| v == c as u16`. -/
def position (l : List Nat) (t : Nat) : Option Nat :=
  match l with
  | [] => none
  | v :: rest => if v == t then some 0 else (position rest t).map (· + 1)

/-- The glyph-index computation at the top of `PCD8544::print_char`: scan the
encoding table for the first entry equal to `c as u16` (the codepoint reduced
modulo 2^16); if the codepoint is absent, fall back to the constant index
`0xFFFD`. -/
def glyph_index (f : Font) (c : Nat) : Nat :=
  match position f.ENCODING (c % 65536) with
  | some k => k
  | none => 0xFFFD

/-- `PCD8544::print_char`.  Characters are represented by their Unicode
codepoint.  The bitmap row fetch `BITMAP[r + index * HEIGHT]` panics in Rust
when the index is out of bounds, modelled by returning `none`. -/
def print_char (f : Font) (st : State) (x y : Nat) (c : Nat) : Option State :=
  let index := glyph_index f c
  let xp := wrap (x * wrap (f.WIDTH + st.char_spacing))
  let yp := wrap (y * f.HEIGHT)
  (List.range f.HEIGHT).foldlM
    (fun s r =>
      match f.BITMAP.get? (r + index * f.HEIGHT) with
      | none => none
      | some b =>
          some ((List.range 8).foldl
            (fun s2 k =>
              set_pixel s2 (wrap (xp + k)) (wrap (yp + r)) ((b &&& (0x80 >>> k)) != 0))
            s))
    st

/-- The layout loop of `PCD8544::print`, recorded as the sequence of
`(column, row, codepoint)` triples at which it invokes `print_char`: place a
character, advance the column, wrap to column 0 of the next row when the next
column position would reach the display width, and stop when the next row
would reach the display height. -/
def print (f : Font) (spacing : Nat) : Nat → Nat → List Nat → List (Nat × Nat × Nat)
  | _, _, [] => []
  | xc, yc, c :: s =>
    (xc, yc, c) ::
      (let xc2 := wrap (xc + 1)
       if LCDWIDTH ≤ wrap (xc2 * wrap (f.WIDTH + spacing)) then
         (let yc2 := wrap (yc + 1)
          if LCDHEIGHT ≤ wrap (yc2 * f.HEIGHT) then [] else print f spacing 0 yc2 s)
       else print f spacing xc2 yc s)

end Pcd8544

namespace Pcd8544

lemma position_eq_some {l : List Nat} {t j : Nat} (h : position l t = some j) :
    l.get? j = some t ∧ ∀ i, i < j → l.get? i ≠ some t := by
  induction l generalizing j with
  | nil => simp [position] at h
  | cons v rest ih =>
    rw [position] at h
    by_cases hv : v = t
    · rw [if_pos (by simpa using hv)] at h
      obtain rfl : j = 0 := by simpa using h.symm
      exact ⟨by simpa using hv, fun i hi => absurd hi (Nat.not_lt_zero i)⟩
    · rw [if_neg (by simpa using hv)] at h
      obtain ⟨j2, hj2, rfl⟩ := Option.map_eq_some'.mp h
      obtain ⟨h1, h2⟩ := ih hj2
      refine ⟨by simpa using h1, fun i hi => ?_⟩
      match i with
      | 0 => simpa using hv
      | i + 1 => simpa using h2 i (by omega)

lemma position_of_mem {l : List Nat} {t : Nat} (h : t ∈ l) :
    ∃ j, position l t = some j := by
  induction l with
  | nil => simp at h
  | cons v rest ih =>
    by_cases hv : v = t
    · exact ⟨0, by rw [position, if_pos (by simpa using hv)]⟩
    · have hr : t ∈ rest := by
        rcases List.mem_cons.mp h with h1 | h1
        · exact absurd h1.symm hv
        · exact h1
      obtain ⟨j, hj⟩ := ih hr
      exact ⟨j + 1, by rw [position, if_neg (by simpa using hv), hj]; rfl⟩

/-- Claim C9 counterexample: the codepoint `U+10041` (above `U+FFFF`) is not
in the encoding table, yet `print_char`'s lookup resolves it to the glyph of
`U+0041` because the scan compares `c as u16`, i.e. the codepoint reduced
modulo 2^16 - exact-codepoint matching fails for supplementary-plane
characters. -/
theorem glyph_lookup_exact_counterexample :
    (0xFFFF : Nat) < 0x10041 ∧
    ¬ (0x10041 : Nat) ∈ terminus6x12.ENCODING ∧
    glyph_index terminus6x12 0x10041 = 33 ∧
    terminus6x12.ENCODING.get? 33 = some 0x41 ∧
    (0x41 : Nat) ≠ 0x10041 ∧
    glyph_index terminus6x12 0x10041 = glyph_index terminus6x12 0x41 := by
  decide

/-- Claim C9 as amended: `print_char` selects the first (lowest) table
position whose entry equals the codepoint reduced modulo 2^16 (Rust
`c as u16`); for codepoints at most `0xFFFF` this is an exact-codepoint first
match, but a codepoint above `U+FFFF` matches any entry congruent to it
modulo 2^16. -/
theorem glyph_lookup_first_match (f : Font) (c : Nat)
    (h : (c % 65536) ∈ f.ENCODING) :
    f.ENCODING.get? (glyph_index f c) = some (c % 65536) ∧
    (∀ i, i < glyph_index f c → f.ENCODING.get? i ≠ some (c % 65536)) ∧
    (c < 65536 → f.ENCODING.get? (glyph_index f c) = some c) := by
  obtain ⟨j, hj⟩ := position_of_mem h
  obtain ⟨h1, h2⟩ := position_eq_some hj
  have hg : glyph_index f c = j := by rw [glyph_index, hj]
  rw [hg]
  exact ⟨h1, h2, fun hc => by rw [← Nat.mod_eq_of_lt hc]; exact h1⟩

/-- Witness for the amended C9: looking up `A` (`U+0041`) in the modelled
table lands on table position 33, the first and exact match. -/
theorem glyph_lookup_first_match_witness :
    ((0x41 : Nat) % 65536) ∈ terminus6x12.ENCODING ∧
    terminus6x12.ENCODING.get? (glyph_index terminus6x12 0x41) = some (0x41 % 65536) ∧
    (∀ i, i < glyph_index terminus6x12 0x41 →
      terminus6x12.ENCODING.get? i ≠ some (0x41 % 65536)) ∧
    ((0x41 : Nat) < 65536 →
      terminus6x12.ENCODING.get? (glyph_index terminus6x12 0x41) = some 0x41) :=
  ⟨by decide, glyph_lookup_first_match terminus6x12 0x41 (by decide)⟩

/-- Claim C3 is false of the code (code bug): for a codepoint absent from the
encoding table the source substitutes the constant `0xFFFD` as a glyph
*index* (not the table position of `U+FFFD`), so the bitmap fetch
`BITMAP[r + 0xFFFD * HEIGHT]` is out of bounds for any table smaller than
`0xFFFE` glyphs (the spec says a few hundred) and `print_char` panics instead
of rendering a fallback glyph.  Concretely for `α` (`U+03B1`): the scan
misses, the fallback index is `0xFFFD`, the very first bitmap access is out
of bounds, and the call fails. -/
theorem print_char_absent_codepoint_panics :
    position terminus6x12.ENCODING (0x3B1 % 65536) = none ∧
    glyph_index terminus6x12 0x3B1 = 0xFFFD ∧
    terminus6x12.BITMAP.length ≤ 0 + 0xFFFD * terminus6x12.HEIGHT ∧
    terminus6x12.BITMAP.get? (0 + 0xFFFD * terminus6x12.HEIGHT) = none ∧
    print_char terminus6x12 initState 0 0 0x3B1 = none := by
  refine ⟨by decide, by decide, by decide, by decide, rfl⟩

end Pcd8544

namespace Pcd8544

lemma print_closed (cs : List Nat) : ∀ x y : Nat, x < 14 → y < 4 →
    print terminus6x12 0 x y cs =
      ((cs.take (56 - (14 * y + x))).enumFrom (14 * y + x)).map
        (fun p => (p.1 % 14, p.1 / 14, p.2)) := by
  induction cs with
  | nil =>
    intro x y hx hy
    simp [print]
  | cons c rest ih =>
    intro x y hx hy
    have h56 : 56 - (14 * y + x) = (55 - (14 * y + x)) + 1 := by omega
    have hmod : (14 * y + x) % 14 = x := by omega
    have hdiv : (14 * y + x) / 14 = y := by omega
    have hw1 : wrap (x + 1) = x + 1 := by simp only [wrap, USIZE]; omega
    have hw6 : wrap 6 = 6 := rfl
    have hw3 : wrap ((x + 1) * 6) = (x + 1) * 6 := by simp only [wrap, USIZE]; omega
    have hwy : wrap (y + 1) = y + 1 := by simp only [wrap, USIZE]; omega
    have hw12 : wrap ((y + 1) * 12) = (y + 1) * 12 := by
      simp only [wrap, USIZE]; omega
    have hW : terminus6x12.WIDTH = 6 := rfl
    have hH : terminus6x12.HEIGHT = 12 := rfl
    rw [h56]
    simp only [print, List.take_succ_cons, List.enumFrom, List.map_cons,
      hW, hH, Nat.add_zero, hw1, hw6, hw3, hwy, hw12, hmod, hdiv,
      LCDWIDTH, LCDHEIGHT]
    rcases Nat.lt_or_ge x 13 with h13 | h13
    · rw [if_neg (by omega)]
      have e1 : 14 * y + (x + 1) = 14 * y + x + 1 := by omega
      have e2 : 56 - (14 * y + x + 1) = 55 - (14 * y + x) := by omega
      rw [ih (x + 1) y (by omega) hy, e1, e2]
    · have hx13 : x = 13 := by omega
      subst hx13
      rw [if_pos (by omega)]
      rcases Nat.lt_or_ge y 3 with h3 | h3
      · rw [if_neg (by omega)]
        have e1 : 14 * (y + 1) + 0 = 14 * y + 13 + 1 := by omega
        have e2 : 56 - (14 * y + 13 + 1) = 55 - (14 * y + 13) := by omega
        rw [ih 0 (y + 1) (by omega) (by omega), e1, e2]
      · have hy3 : y = 3 := by omega
        subst hy3
        rw [if_pos (by omega)]
        norm_num

/-- Claim C4: with glyph width 6 and character spacing 0 on the 84-pixel-wide
display, `print` starting at `(0, 0)` places the `n`-th character of the
string (0-based) at column `n % 14`, row `n / 14`: 14 characters per row, the
15th character of a row lands at column 0 of the next row with no characters
dropped mid-line; and exactly the first 56 characters are placed (once the
next row would reach the 48-pixel height, i.e. row 4 at glyph height 12, the
remaining characters are silently dropped - the function is total, no
error). -/
theorem print_wrap_truncate (cs : List Nat) :
    print terminus6x12 0 0 0 cs =
      ((cs.take 56).enumFrom 0).map (fun p => (p.1 % 14, p.1 / 14, p.2)) ∧
    (print terminus6x12 0 0 0 cs).length = min 56 cs.length := by
  have h := print_closed cs 0 0 (by norm_num) (by norm_num)
  norm_num at h
  refine ⟨h, ?_⟩
  rw [h]
  simp [List.length_take]

end Pcd8544

namespace Pcd8544

/-- An observable event of `new_pin`: the blocking wait between attempts
(`sleep(timeout)`) or a `pin.set_direction` attempt, tagged with the loop
index of the attempt. -/
inductive PinEvent where
  | sleep (ms : Nat)
  | setDirection (k : Nat)
deriving DecidableEq

/-- The driver error type (`enum Error`): a line error wrapping the GPIO
collaborator's error, or a bus error wrapping the I/O error.  The payload
types are opaque to the driver and kept abstract. -/
inductive RustError (α β : Type) where
  | PinError (e : α)
  | SpiDevError (e : β)
deriving DecidableEq

/-- The retry loop of `new_pin` (`for k in 0..retries`), iterating over the
remaining attempt indices.  `res` carries the running result, initialised to
success before the loop; each attempt sleeps first unless it is attempt 0,
returns at once on success, and records the (converted) error otherwise.
The accompanying trace lists the events in order. -/
def newPinGo {α β : Type} (timeout : Nat) (setDir : Nat → Except α Unit) :
    List Nat → Except (RustError α β) Unit →
      Except (RustError α β) Unit × List PinEvent
  | [], res => (res, [])
  | k :: rest, res =>
    let pre : List PinEvent := if 0 < k then [.sleep timeout] else []
    match setDir k with
    | .ok _ => (.ok (), pre ++ [.setDirection k])
    | .error e =>
        let r := newPinGo timeout setDir rest (.error (.PinError e))
        (r.1, pre ++ .setDirection k :: r.2)

/-- `new_pin(n, dir, timeout, retries)`, as a function of the outcomes of the
collaborator calls it makes: `exportRes` is the result of `pin.export()`,
`setDir k` the result `pin.set_direction(dir)` would produce on attempt `k`.
Export failure aborts at once through the `?` conversion; otherwise the
retry loop runs.  Returns the final result (`.ok ()` standing for the
configured pin) and the trace of sleeps and attempts. -/
def new_pin {α β : Type} (timeout : Nat) (exportRes : Except α Unit)
    (setDir : Nat → Except α Unit) (retries : Nat) :
    Except (RustError α β) Unit × List PinEvent :=
  match exportRes with
  | .error e => (.error (.PinError e), [])
  | .ok _ => newPinGo timeout setDir (List.range retries) (.ok ())

/-- The expected event trace for a run of the given attempt indices: a sleep
before every attempt whose index is positive, then the attempt itself. -/
def attemptsTrace (timeout : Nat) (ks : List Nat) : List PinEvent :=
  ks.flatMap fun k =>
    (if 0 < k then [PinEvent.sleep timeout] else []) ++ [PinEvent.setDirection k]

end Pcd8544

namespace Pcd8544

lemma newPinGo_all_fail {α β : Type} (timeout : Nat) (setDir : Nat → Except α Unit)
    (err : Nat → α) :
    ∀ (ks : List Nat) (res : Except (RustError α β) Unit),
      (∀ k ∈ ks, setDir k = .error (err k)) →
      newPinGo timeout setDir ks res =
        ((match ks.getLast? with
          | none => res
          | some k => .error (.PinError (err k))), attemptsTrace timeout ks) := by
  intro ks
  induction ks with
  | nil => intro res hall; simp [newPinGo, attemptsTrace]
  | cons k rest ih =>
    intro res hall
    have hk : setDir k = .error (err k) := hall k (by simp)
    have hrest : ∀ k2 ∈ rest, setDir k2 = .error (err k2) :=
      fun k2 hk2 => hall k2 (List.mem_cons_of_mem _ hk2)
    cases rest with
    | nil =>
      simp [newPinGo, hk, attemptsTrace]
    | cons k2 rest2 =>
      have hv : (k2 :: rest2).getLast? = some ((k2 :: rest2).getLast (by simp)) :=
        List.getLast?_eq_getLast_of_ne_nil (by simp)
      rw [newPinGo, hk]
      dsimp only
      rw [ih _ hrest, hv, List.getLast?_cons_cons, hv]
      simp [attemptsTrace]

lemma newPinGo_first_ok {α β : Type} (timeout : Nat) (setDir : Nat → Except α Unit) :
    ∀ (pre post : List Nat) (j : Nat) (res : Except (RustError α β) Unit),
      (∀ k ∈ pre, setDir k ≠ .ok ()) → setDir j = .ok () →
      newPinGo timeout setDir (pre ++ j :: post) res =
        (.ok (), attemptsTrace timeout (pre ++ [j])) := by
  intro pre
  induction pre with
  | nil =>
    intro post j res hpre hj
    simp [newPinGo, hj, attemptsTrace]
  | cons k pre2 ih =>
    intro post j res hpre hj
    have hk : setDir k ≠ .ok () := hpre k (by simp)
    cases hsd : setDir k with
    | ok u => cases u; exact absurd hsd hk
    | error e =>
      have hpre2 : ∀ k2 ∈ pre2, setDir k2 ≠ .ok () :=
        fun k2 hk2 => hpre k2 (List.mem_cons_of_mem _ hk2)
      rw [List.cons_append, newPinGo, hsd]
      dsimp only
      rw [ih post j _ hpre2 hj]
      simp [attemptsTrace]

lemma range_eq_append {j n : Nat} (h : j < n) :
    ∃ post, List.range n = List.range j ++ j :: post := by
  induction n with
  | zero => omega
  | succ m ih =>
    rcases Nat.lt_or_ge j m with hm | hm
    · obtain ⟨post, hpost⟩ := ih hm
      exact ⟨post ++ [m], by
        rw [List.range_succ, hpost]
        simp⟩
    · have hjm : j = m := by omega
      subst hjm
      exact ⟨[], by rw [List.range_succ]⟩

/-- Claim C5: if the export fails, `new_pin` aborts at once with that error
wrapped as a line error and never attempts `set_direction`; otherwise it
attempts `set_direction` up to `retries` times, sleeping `timeout` before
every attempt except attempt 0.  The first successful attempt `j` stops the
loop at once with a success after exactly the attempts `0..j`; if every one
of the `retries ≥ 1` attempts fails, the result is the error of the last
attempt (index `retries - 1`), earlier errors being discarded. -/
theorem new_pin_retry (α β : Type) (timeout : Nat)
    (setDir : Nat → Except α Unit) (retries : Nat) :
    (∀ e : α, @new_pin α β timeout (.error e) setDir retries =
      (.error (.PinError e), [])) ∧
    (∀ j, j < retries → (∀ i, i < j → setDir i ≠ .ok ()) → setDir j = .ok () →
      @new_pin α β timeout (.ok ()) setDir retries =
        (.ok (), attemptsTrace timeout (List.range (j + 1)))) ∧
    (∀ err : Nat → α, 1 ≤ retries →
      (∀ i, i < retries → setDir i = .error (err i)) →
      @new_pin α β timeout (.ok ()) setDir retries =
        (.error (.PinError (err (retries - 1))),
          attemptsTrace timeout (List.range retries))) := by
  refine ⟨fun e => rfl, ?_, ?_⟩
  · intro j hj hfails hj2
    obtain ⟨post, hsplit⟩ := range_eq_append hj
    have hpre : ∀ k ∈ List.range j, setDir k ≠ .ok () :=
      fun k hk => hfails k (List.mem_range.mp hk)
    simp only [new_pin, hsplit]
    rw [newPinGo_first_ok timeout setDir (List.range j) post j _ hpre hj2,
      ← List.range_succ]
  · intro err hret hfails
    have hall : ∀ k ∈ List.range retries, setDir k = .error (err k) :=
      fun k hk => hfails k (List.mem_range.mp hk)
    simp only [new_pin]
    rw [newPinGo_all_fail timeout setDir err (List.range retries) _ hall]
    cases retries with
    | zero => omega
    | succ m =>
      rw [List.range_succ]
      simp [List.getLast?_concat]

/-- Witness for C5, at `retries = 3`: failures on attempts 0 and 1 with
success on attempt 2 yield the configured pin after the trace
attempt 0, sleep, attempt 1, sleep, attempt 2; failure on all three attempts
yields attempt 2's error. -/
theorem new_pin_retry_witness :
    ((2 : Nat) < 3 ∧
      (fun k => if k < 2 then (Except.error k : Except Nat Unit) else .ok ()) 2
        = .ok ()) ∧
    @new_pin Nat Nat 7 (.ok ())
      (fun k => if k < 2 then (Except.error k : Except Nat Unit) else .ok ()) 3 =
      (.ok (), attemptsTrace 7 (List.range 3)) ∧
    @new_pin Nat Nat 7 (.ok ())
      (fun k => (Except.error (k + 10) : Except Nat Unit)) 3 =
      (.error (.PinError 12), attemptsTrace 7 (List.range 3)) :=
  ⟨⟨by norm_num, rfl⟩,
    (new_pin_retry Nat Nat 7
      (fun k => if k < 2 then (Except.error k : Except Nat Unit) else .ok ()) 3).2.1
      2 (by norm_num) (by intro i hi; interval_cases i <;> simp) rfl,
    (new_pin_retry Nat Nat 7
      (fun k => (Except.error (k + 10) : Except Nat Unit)) 3).2.2
      (fun k => k + 10) (by norm_num) (fun i _ => rfl)⟩

/-- Claim C10: with `retries = 0` and a successful export, `new_pin` returns
the pin as a success without ever attempting `set_direction` (the result
variable is initialised to success before the loop), so the failure result is
unreachable when `retries = 0`. -/
theorem new_pin_zero_retries (α β : Type) (timeout : Nat)
    (setDir : Nat → Except α Unit) (retries : Nat) (h : retries = 0) :
    @new_pin α β timeout (.ok ()) setDir retries = (.ok (), []) ∧
    ∀ (r : RustError α β) (tr : List PinEvent),
      @new_pin α β timeout (.ok ()) setDir retries ≠ (.error r, tr) := by
  subst h
  refine ⟨rfl, ?_⟩
  intro r tr hcontra
  simp [new_pin, newPinGo, List.range] at hcontra

/-- Witness for C10: concrete zero-retry acquisition with an always-failing
`set_direction` oracle still succeeds with an empty trace. -/
theorem new_pin_zero_retries_witness :
    (0 : Nat) = 0 ∧
    @new_pin Nat Nat 0 (.ok ()) (fun _ => (Except.error 5 : Except Nat Unit)) 0 =
      (.ok (), []) :=
  ⟨rfl, (new_pin_zero_retries Nat Nat 0
    (fun _ => (Except.error 5 : Except Nat Unit)) 0 rfl).1⟩

end Pcd8544
